import Mathlib

/-!
Verification development for the wd-mycloud-rsync-recovery repository.

The Python sources (`rsync_restore.py`, `preflight.py`) are shallowly embedded
below.  Strings are modelled as `List Char`, Python `dict`/`set` values as
association lists / membership lists, the filesystem as explicit maps, SQLite
cursors as lists of rows, and Python `float` values as `ℚ` (exact for every
value the claims exercise).  Each embedded definition keeps the name of the
source function it translates.  Functions whose Python originals recurse on a
non-structural measure are written with an explicit fuel argument; the public
wrapper supplies fuel strictly larger than the decreasing measure, so the
fuel-exhaustion branch is unreachable.
-/

/-! ### Basic string helpers (Python `str` operations used by the sources) -/

/-- `s.split(sep)` for a single-character separator, Python semantics:
always returns at least one (possibly empty) piece. -/
def splitOnChar (sep : Char) : List Char → List (List Char)
  | [] => [[]]
  | c :: rest =>
    match splitOnChar sep rest with
    | [] => [[]]
    | s :: ss => if c = sep then [] :: s :: ss else (c :: s) :: ss

/-- `sep.join(parts)` for a single-character separator. -/
def joinSep (sep : Char) : List (List Char) → List Char
  | [] => []
  | [x] => x
  | x :: xs => x ++ sep :: joinSep sep xs

/-- Python `s.replace(pat, sub)` for a non-empty `pat`: replace every
non-overlapping occurrence, scanning left to right.  The fuel drops by one per
examined character, so `s.length + 1` always suffices. -/
def replaceAllFuel : Nat → List Char → List Char → List Char → List Char
  | 0, s, _, _ => s
  | fuel + 1, s, pat, sub =>
    match s with
    | [] => []
    | c :: rest =>
      if pat ≠ [] ∧ pat.isPrefixOf (c :: rest) then
        sub ++ replaceAllFuel fuel ((c :: rest).drop pat.length) pat sub
      else
        c :: replaceAllFuel fuel rest pat sub

def replaceAll (s pat sub : List Char) : List Char :=
  replaceAllFuel (s.length + 1) s pat sub

/-- Python `s.rstrip(chars)`: drop trailing characters belonging to the set. -/
def rstripSet (chars : List Char) (s : List Char) : List Char :=
  (s.reverse.dropWhile (· ∈ chars)).reverse

/-- Python `s.lstrip(c)` for a single strip character. -/
def lstripChar (c : Char) (s : List Char) : List Char :=
  s.dropWhile (· = c)

/-- Python `str.isspace` on the ASCII whitespace the sources can meet. -/
def pyIsSpace (c : Char) : Bool :=
  c = ' ' ∨ c = '\t' ∨ c = '\n' ∨ c = '\r' ∨ c = '\x0b' ∨ c = '\x0c'

/-- Python `s.strip()`. -/
def pyStrip (s : List Char) : List Char :=
  ((s.dropWhile pyIsSpace).reverse.dropWhile pyIsSpace).reverse

/-- `int(s)` on a string of decimal digits. -/
def natOfDigits (cs : List Char) : Nat :=
  cs.foldl (fun n c => n * 10 + (c.toNat - 48)) 0

/-- `os.path.join(a, b)` (POSIX, two arguments). -/
def osPathJoin (a b : List Char) : List Char :=
  if b.head? = some '/' then b
  else if a = [] ∨ a.getLast? = some '/' then a ++ b
  else a ++ '/' :: b

/-! ### `fnmatch` (Python stdlib glob matching, POSIX `normcase` = identity)

`fnmatch.translate` semantics: `*` matches any sequence, `?` any single
character, `[...]` a character class (leading `!` negates, a leading `]` is a
literal member, `a-b` is a range, an unclosed `[` is a literal `[`). -/

/-- Scan a bracketed class for its closing `]`; returns the class body and the
remainder after `]`, or `none` when the bracket is unclosed. -/
def findClose : List Char → Option (List Char × List Char)
  | [] => none
  | c :: rest =>
    if c = ']' then some ([], rest)
    else (findClose rest).map fun p => (c :: p.1, p.2)

/-- Interpret a class body as a list of character ranges (`a-b`), with single
members as degenerate ranges and a trailing `-` kept literal. -/
def rangesOf : List Char → List (Char × Char)
  | [] => []
  | a :: '-' :: c :: rest => (a, c) :: rangesOf rest
  | a :: rest => (a, a) :: rangesOf rest

/-- Does the class start with a negating `!`? -/
def classNeg (cs : List Char) : Bool :=
  cs.head? = some '!'

def classAfterNeg (cs : List Char) : List Char :=
  if classNeg cs then cs.tail else cs

/-- Is the first member a literal `]`? -/
def classLit (cs : List Char) : Bool :=
  (classAfterNeg cs).head? = some ']'

def classBody (cs : List Char) : List Char :=
  if classLit cs then (classAfterNeg cs).tail else classAfterNeg cs

/-- Parse a class following `[`: optional `!` negation, then a leading `]` is a
literal member; returns `(negated, ranges, rest)`, `none` if unclosed. -/
def parseClass (cs : List Char) : Option (Bool × List (Char × Char) × List Char) :=
  match findClose (classBody cs) with
  | none => none
  | some (body, rest) =>
    some (classNeg cs, (if classLit cs then [(']', ']')] else []) ++ rangesOf body, rest)

def inClass (neg : Bool) (ranges : List (Char × Char)) (c : Char) : Bool :=
  xor (ranges.any fun r => r.1 ≤ c ∧ c ≤ r.2) neg

/-- Glob matching with fuel: `globMatchFuel fuel pattern name`.  Every step
consumes one fuel and strictly shrinks `pattern.length + name.length`, so
`pattern.length + name.length + 1` fuel always suffices. -/
def globMatchFuel : Nat → List Char → List Char → Bool
  | 0, _, _ => false
  | _ + 1, [], s => s.isEmpty
  | fuel + 1, p :: ps, s =>
    if p = '*' then
      globMatchFuel fuel ps s ||
        (match s with
         | [] => false
         | _ :: t => globMatchFuel fuel (p :: ps) t)
    else if p = '?' then
      match s with
      | [] => false
      | _ :: t => globMatchFuel fuel ps t
    else if p = '[' then
      match parseClass ps with
      | some (neg, ranges, rest) =>
        match s with
        | [] => false
        | c :: t => inClass neg ranges c && globMatchFuel fuel rest t
      | none =>
        match s with
        | [] => false
        | c :: t => (c = '[') && globMatchFuel fuel ps t
    else
      match s with
      | [] => false
      | c :: t => (p = c) && globMatchFuel fuel ps t

def globMatch (pattern s : List Char) : Bool :=
  globMatchFuel (pattern.length + s.length + 1) pattern s

/-- `fnmatch.fnmatch(name, pattern)` (POSIX: `normcase` is the identity). -/
def fnmatch (name pattern : List Char) : Bool :=
  globMatch pattern name

/-! ### `matches_pattern` (rsync_restore.py lines 289-300) -/

/-- `matches_pattern(path, patterns)`: a path matches when any pattern glob-matches
the whole path, or when the pattern with all trailing `/` and `*` stripped
glob-matches any `os.sep`-joined prefix `parts[:i+1]` of the path. -/
def matches_pattern (path : List Char) (patterns : List (List Char)) : Bool :=
  patterns.any fun pattern =>
    fnmatch path pattern ||
      (let parts := splitOnChar '/' path
       (List.range parts.length).any fun i =>
         fnmatch (joinSep '/' (parts.take (i + 1))) (rstripSet ['/', '*'] pattern))

example : matches_pattern "Photos/junk.tmp".data ["Photos/*".data] = true := by decide

example : matches_pattern "Photos/a/b/c.txt".data ["Photos".data] = true := by decide

example : matches_pattern "Other/x.txt".data ["Photos/*".data] = false := by decide

example : matches_pattern "file.tmp".data ["*.tmp".data] = true := by decide

/-! ### Destination scan (rsync_restore.py lines 353-436)

The walk order of `os.walk` is modelled by the input list of relative file
paths; the per-top-level-folder statistics (`by_folder`, `folder_stats`) are
bookkeeping orthogonal to the classification and are elided. -/

/-- `rel_path.replace(os.sep, '/')` with POSIX `os.sep = '/'`. -/
def normalizePath (rel_path : List Char) : List Char :=
  replaceAll rel_path ['/'] ['/']

structure ScanResult where
  orphans : List (List Char)
  protectedFiles : List (List Char)
  matched : List (List Char)
deriving DecidableEq

/-- One iteration of the scan loop: protected check first (short-circuits),
then canonical-set membership on the separator-normalized path, else orphan. -/
def scanStep (canonical_paths : List (List Char)) (protect_patterns : List (List Char))
    (res : ScanResult) (rel_path : List Char) : ScanResult :=
  if matches_pattern rel_path protect_patterns then
    { res with protectedFiles := res.protectedFiles ++ [rel_path] }
  else if normalizePath rel_path ∈ canonical_paths then
    { res with matched := res.matched ++ [rel_path] }
  else
    { res with orphans := res.orphans ++ [rel_path] }

/-- `scan_destination_for_orphans`: classify every scanned file.  The
`cleanup_patterns` argument is accepted but, as in the source, unused by the
classification loop. -/
def scan_destination_for_orphans (files : List (List Char))
    (canonical_paths : List (List Char)) (protect_patterns : List (List Char))
    (_cleanup_patterns : List (List Char)) : ScanResult :=
  files.foldl (scanStep canonical_paths protect_patterns) ⟨[], [], []⟩

/-! ### Orphan deletion (rsync_restore.py lines 439-466)

The destination filesystem is a map from full paths to a state:
`present` (an existing, removable file), `locked` (exists but `os.remove`
raises `OSError`, e.g. permissions), `absent` (already gone, `os.remove`
raises `OSError`). -/

inductive FileState
  | absent
  | present
  | locked
deriving DecidableEq

def removeFile (fs : List Char → FileState) (p : List Char) : List Char → FileState :=
  fun q => if q = p then .absent else fs q

/-- One iteration of the deletion loop: dry-run only logs and counts, a real
run calls `os.remove` and counts the per-file `OSError` failures. -/
def deleteStep (dest_dir : List Char) (dry_run : Bool)
    (st : (List Char → FileState) × Nat × Nat) (rel_path : List Char) :
    (List Char → FileState) × Nat × Nat :=
  let full_path := osPathJoin dest_dir rel_path
  if dry_run then
    (st.1, st.2.1 + 1, st.2.2)
  else
    match st.1 full_path with
    | .present => (removeFile st.1 full_path, st.2.1 + 1, st.2.2)
    | _ => (st.1, st.2.1, st.2.2 + 1)

/-- `delete_orphans(dest_dir, orphan_paths, dry_run)`: returns the filesystem
after the batch together with `(deleted, errors)`. -/
def delete_orphans (fs : List Char → FileState) (dest_dir : List Char)
    (orphan_paths : List (List Char)) (dry_run : Bool) :
    (List Char → FileState) × Nat × Nat :=
  orphan_paths.foldl (deleteStep dest_dir dry_run) (fs, 0, 0)

/-! ### Metadata rows and canonical-path resolution
(rsync_restore.py lines 303-350, 680-709, 1068-1205)

A database row; `id` values are unique (primary key), so whether the lookup
dictionary keeps the first or the last binding of an id is immaterial. -/

structure MetadataRow where
  id : Nat
  name : List Char
  parentID : Option Nat
  contentID : Option (List Char)
deriving DecidableEq

/-- `parent_lookup[row.id] = (row.name, row.parentID)` built from all rows. -/
def parentLookup (rows : List MetadataRow) : List (Nat × List Char × Option Nat) :=
  rows.map fun r => (r.id, r.name, r.parentID)

def lookupParent (lk : List (Nat × List Char × Option Nat)) (i : Nat) :
    Option (List Char × Option Nat) :=
  (lk.find? fun e => e.1 = i).map fun e => e.2

/-- Loop guard of the parent-chain walk: `while current_id and current_id in
parent_lookup` — a Python integer id of `0` is falsy, `None` is falsy. -/
def contCond (lk : List (Nat × List Char × Option Nat)) (cur : Option Nat) : Bool :=
  match cur with
  | none => false
  | some i => i ≠ 0 && (lookupParent lk i).isSome

/-- The parent-chain walk with fuel.  The source loop has no fuel; fuel
exhaustion (`none`) models nontermination on cyclic metadata. -/
def walkFuel (lk : List (Nat × List Char × Option Nat)) :
    Nat → List (List Char) → Option Nat → Option (List (List Char))
  | 0, path_parts, current_id =>
    if contCond lk current_id then none else some path_parts
  | fuel + 1, path_parts, current_id =>
    match current_id with
    | none => some path_parts
    | some i =>
      if i = 0 then some path_parts
      else
        match lookupParent lk i with
        | none => some path_parts
        | some (name, parent_id) => walkFuel lk fuel (name :: path_parts) parent_id

/-- The parent step relation of the lookup: `i` steps to `j` when `i`'s entry
names `j` as its parent.  The claims' acyclicity hypothesis is stated as the
absence of `Relation.TransGen`-cycles of this relation. -/
def parentRel (lk : List (Nat × List Char × Option Nat)) (i j : Nat) : Prop :=
  ∃ nm, lookupParent lk i = some (nm, some j)

/-- `name LIKE '%auth%|%'`: the name contains `auth` with a `|` somewhere
after that occurrence. -/
def markerLike (s : List Char) : Bool :=
  match s with
  | [] => false
  | _ :: rest => ("auth".data.isPrefixOf s && '|' ∈ s.drop 4) || markerLike rest

/-- `SELECT name FROM files WHERE name LIKE '%auth%|%' LIMIT 1`, in cursor
(row) order. -/
def findRootDir (rows : List MetadataRow) : Option (List Char) :=
  (rows.find? fun r => markerLike r.name).map fun r => r.name

/-- Root stripping applied to one resolved path (lines 341-344 and the
duplicated lines 1151-1154):
`rel_path.replace(root_dir + '/', '').replace(root_dir, '').lstrip('/')`,
with an empty or absent `root_dir` falsy, disabling the two replaces. -/
def stripRoot (root_dir : Option (List Char)) (rel_path : List Char) : List Char :=
  let stripped :=
    match root_dir with
    | some rd => if rd ≠ [] then replaceAll (replaceAll rel_path (rd ++ ['/']) []) rd [] else rel_path
    | none => rel_path
  lstripChar '/' stripped

/-- `get_canonical_paths_from_db`: the canonical path set, modelled as a
duplicate-free list.  Rows are filtered by `WHERE contentID IS NOT NULL`
exactly as in the source; `none` models nontermination on cyclic metadata. -/
def get_canonical_paths_from_db (rows : List MetadataRow) : Option (List (List Char)) :=
  let lk := parentLookup rows
  let root_dir := findRootDir rows
  rows.foldl
    (fun acc r =>
      match acc with
      | none => none
      | some canonical_paths =>
        if r.contentID.isSome then
          match walkFuel lk (rows.length + 1) [r.name] r.parentID with
          | none => none
          | some path_parts =>
            let rel_path := stripRoot root_dir (joinSep '/' path_parts)
            if rel_path ≠ [] then
              if rel_path ∈ canonical_paths then some canonical_paths
              else some (canonical_paths ++ [rel_path])
            else some canonical_paths
        else some canonical_paths)
    (some [])

/-- `get_db_stats` (lines 693-700): `(total_files, total_dirs)` —
`contentID IS NOT NULL AND contentID != ''` versus
`contentID IS NULL OR contentID = ''`. -/
def get_db_stats (rows : List MetadataRow) : Nat × Nat :=
  (rows.countP fun r => decide (r.contentID ≠ none ∧ r.contentID ≠ some []),
   rows.countP fun r => decide (r.contentID = none ∨ r.contentID = some []))

/-! ### Symlink-farm construction (rsync_restore.py lines 1068-1205)

The blob store is the set `sourceExists` of existing paths; the farm directory
is a map from full paths to entries.  `os.path.abspath` is the identity here
(the blob root is given absolute).  The modelled `makedirs`/`remove`/`symlink`
calls cannot fail, so the `except OSError` errors counter stays untouched by
the model; the occupied-by-regular-file branch is taken before any of them. -/

inductive FarmEntry
  | file
  | symlink (target : List Char)
deriving DecidableEq

def farmLookup (farm : List (List Char × FarmEntry)) (p : List Char) : Option FarmEntry :=
  (farm.find? fun e => e.1 = p).map fun e => e.2

def farmSet (farm : List (List Char × FarmEntry)) (p : List Char) (e : FarmEntry) :
    List (List Char × FarmEntry) :=
  (farm.filter fun x => x.1 ≠ p) ++ [(p, e)]

deriving instance DecidableEq for Except

structure FarmResult where
  created : Nat
  skipped : Nat
  errors : Nat
  farm : List (List Char × FarmEntry)
deriving DecidableEq

/-- The body of the streaming loop over `SELECT ... WHERE contentID IS NOT NULL`.
An empty `contentID` reaches `content_id[0]` and raises `IndexError`; this and
nontermination on cycles are the `Except.error` cases. -/
def farmLoop (lk : List (Nat × List Char × Option Nat)) (root_dir : Option (List Char))
    (source_dir : List Char) (sourceExists : List (List Char)) (farm_dir : List Char)
    (sanitize_pipes : Bool) (limit : Nat) (fuel : Nat) :
    List MetadataRow → FarmResult → Except (List Char) FarmResult
  | [], st => .ok st
  | r :: rest, st =>
    if limit > 0 ∧ st.created ≥ limit then .ok st
    else
      match r.contentID with
      | none => farmLoop lk root_dir source_dir sourceExists farm_dir sanitize_pipes limit fuel rest st
      | some content_id =>
        match walkFuel lk fuel [r.name] r.parentID with
        | none => .error "unbounded parent walk".data
        | some path_parts =>
          let rel1 := stripRoot root_dir (joinSep '/' path_parts)
          let rel_path := if sanitize_pipes then replaceAll rel1 ['|'] ['-'] else rel1
          if rel_path = [] then
            farmLoop lk root_dir source_dir sourceExists farm_dir sanitize_pipes limit fuel rest
              { st with skipped := st.skipped + 1 }
          else
            match content_id with
            | [] => .error "IndexError: string index out of range".data
            | c0 :: _ =>
              let cand1 := osPathJoin (osPathJoin source_dir [c0]) content_id
              let cand2 := osPathJoin source_dir content_id
              let source_path : Option (List Char) :=
                if cand1 ∈ sourceExists then some cand1
                else if cand2 ∈ sourceExists then some cand2
                else none
              match source_path with
              | none =>
                farmLoop lk root_dir source_dir sourceExists farm_dir sanitize_pipes limit fuel rest
                  { st with skipped := st.skipped + 1 }
              | some sp =>
                let farm_path := osPathJoin farm_dir rel_path
                match farmLookup st.farm farm_path with
                | some (.symlink _) =>
                  farmLoop lk root_dir source_dir sourceExists farm_dir sanitize_pipes limit fuel rest
                    { st with created := st.created + 1,
                              farm := farmSet st.farm farm_path (.symlink sp) }
                | some .file =>
                  farmLoop lk root_dir source_dir sourceExists farm_dir sanitize_pipes limit fuel rest
                    { st with skipped := st.skipped + 1 }
                | none =>
                  farmLoop lk root_dir source_dir sourceExists farm_dir sanitize_pipes limit fuel rest
                    { st with created := st.created + 1,
                              farm := farmSet st.farm farm_path (.symlink sp) }

/-- `create_symlink_farm_streaming(db, source_dir, farm_dir, sanitize_pipes, limit)`
over the rows of the database, an existing-blob-path set, and the initial
contents of the farm directory. -/
def create_symlink_farm_streaming (rows : List MetadataRow) (source_dir : List Char)
    (sourceExists : List (List Char)) (farm_dir : List Char)
    (farm0 : List (List Char × FarmEntry)) (sanitize_pipes : Bool) (limit : Nat) :
    Except (List Char) FarmResult :=
  farmLoop (parentLookup rows) (findRootDir rows) source_dir sourceExists farm_dir
    sanitize_pipes limit (rows.length + 1)
    (rows.filter fun r => r.contentID.isSome) ⟨0, 0, 0, farm0⟩

/-! ### rsync output parsing (rsync_restore.py lines 821-979)

`RsyncMonitor` progress fields as mutated by `update_progress`/`add_error`;
threading and wall-clock logging are outside the model.  Python floats are
modelled as `ℚ` (exact for the parsed values). -/

structure RsyncMonitor where
  bytes_transferred : Nat
  files_transferred : Nat
  percent_complete : Nat
  transfer_speed : ℚ
  eta : List Char
  current_file : List Char
  errors : List (List Char)

def initMonitor : RsyncMonitor :=
  { bytes_transferred := 0, files_transferred := 0, percent_complete := 0,
    transfer_speed := 0, eta := [], current_file := [], errors := [] }

def isDigitOrComma (c : Char) : Bool :=
  c.isDigit || c = ','

def isDigitOrDot (c : Char) : Bool :=
  c.isDigit || c = '.'

structure ProgressMatch where
  bytesStr : List Char
  percentStr : List Char
  speedNumStr : List Char
  speedUnit : Option Char
  etaStr : List Char

/-- `re.search(r'^\s*([\d,]+)\s+(\d+)%\s+([\d.]+)([KMG]?)B/s\s+(\d+:\d+:\d+)', line)`.
The `^` anchor fixes the match at position 0; every character class is
disjoint from its successor, so greedy backtracking coincides with the
maximal-munch scan implemented here. -/
def matchProgressLine (line : List Char) : Option ProgressMatch :=
  let l1 := line.dropWhile pyIsSpace
  let g1 := l1.takeWhile isDigitOrComma
  let l2 := l1.drop g1.length
  if g1 = [] then none else
  let w1 := l2.takeWhile pyIsSpace
  let l3 := l2.drop w1.length
  if w1 = [] then none else
  let g2 := l3.takeWhile Char.isDigit
  let l4 := l3.drop g2.length
  if g2 = [] then none else
  match l4 with
  | '%' :: l5 =>
    let w2 := l5.takeWhile pyIsSpace
    let l6 := l5.drop w2.length
    if w2 = [] then none else
    let g3 := l6.takeWhile isDigitOrDot
    let l7 := l6.drop g3.length
    if g3 = [] then none else
    let unit : Option Char × List Char :=
      match l7 with
      | c :: t => if c = 'K' ∨ c = 'M' ∨ c = 'G' then (some c, t) else (none, l7)
      | [] => (none, l7)
    match unit.2 with
    | 'B' :: '/' :: 's' :: l9 =>
      let w3 := l9.takeWhile pyIsSpace
      let l10 := l9.drop w3.length
      if w3 = [] then none else
      let d1 := l10.takeWhile Char.isDigit
      let l11 := l10.drop d1.length
      if d1 = [] then none else
      match l11 with
      | ':' :: l12 =>
        let d2 := l12.takeWhile Char.isDigit
        let l13 := l12.drop d2.length
        if d2 = [] then none else
        match l13 with
        | ':' :: l14 =>
          let d3 := l14.takeWhile Char.isDigit
          if d3 = [] then none else
          some { bytesStr := g1, percentStr := g2, speedNumStr := g3, speedUnit := unit.1,
                 etaStr := d1 ++ ':' :: d2 ++ ':' :: d3 }
        | _ => none
      | _ => none
    | _ => none
  | _ => none

/-- `float(s)` on the `[\d.]+` group.  A second `.` would raise `ValueError`
in the source and never occurs in rsync output. -/
def ratOfNumStr (cs : List Char) : ℚ :=
  match splitOnChar '.' cs with
  | [a] => (natOfDigits a : ℚ)
  | [a, b] => (natOfDigits a : ℚ) + (natOfDigits b : ℚ) / 10 ^ b.length
  | _ => 0

/-- `{'': 1, 'K': 1024, 'M': 1024**2, 'G': 1024**3}` with default 1. -/
def speed_multiplier : Option Char → Nat
  | some 'K' => 1024
  | some 'M' => 1024 ^ 2
  | some 'G' => 1024 ^ 3
  | _ => 1

/-- `re.search(r'total size is ([\d,]+)', line)`: first position where the
literal is followed by at least one digit-or-comma, maximal group. -/
def searchTotalSize : List Char → Option Nat
  | [] => none
  | c :: rest =>
    let here : Option Nat :=
      if "total size is ".data.isPrefixOf (c :: rest) then
        let g := ((c :: rest).drop 14).takeWhile isDigitOrComma
        if g = [] then none else some (natOfDigits (g.filter (· ≠ ',')))
      else none
    match here with
    | some n => some n
    | none => searchTotalSize rest

/-- `re.search(r'xfr#(\d+)', line)`. -/
def searchXfrNum : List Char → Option Nat
  | [] => none
  | c :: rest =>
    let here : Option Nat :=
      if "xfr#".data.isPrefixOf (c :: rest) then
        let g := ((c :: rest).drop 4).takeWhile Char.isDigit
        if g = [] then none else some (natOfDigits g)
      else none
    match here with
    | some n => some n
    | none => searchXfrNum rest

def toLowerStr (s : List Char) : List Char :=
  s.map Char.toLower

/-- Substring containment (`pat in s` for Python strings). -/
def containsSub (pat : List Char) : List Char → Bool
  | [] => pat.isEmpty
  | c :: rest => pat.isPrefixOf (c :: rest) || containsSub pat rest

/-- `parse_rsync_progress(line, monitor)` (lines 922-979): the four
independent checks applied in source order to one output line. -/
def parse_rsync_progress (line : List Char) (monitor : RsyncMonitor) : RsyncMonitor :=
  let m1 :=
    match matchProgressLine line with
    | some pm =>
      { monitor with
        bytes_transferred := natOfDigits (pm.bytesStr.filter (· ≠ ',')),
        percent_complete := natOfDigits pm.percentStr,
        transfer_speed := ratOfNumStr pm.speedNumStr * (speed_multiplier pm.speedUnit : ℚ),
        eta := pm.etaStr }
    | none => monitor
  let m2 :=
    match searchTotalSize line with
    | some n => { m1 with bytes_transferred := n }
    | none => m1
  let m3 :=
    match searchXfrNum line with
    | some n =>
      let m := { m2 with files_transferred := n }
      if '(' ∈ line then
        let filename := pyStrip (line.takeWhile (· ≠ '('))
        if filename ≠ [] then { m with current_file := filename } else m
      else m
    | none => m2
  if containsSub "error".data (toLowerStr line) || containsSub "failed".data (toLowerStr line) then
    { m3 with errors := m3.errors ++ [pyStrip line] }
  else m3

/-! ### Thread-count recommendation (preflight.py lines 120-177) -/

def network_fs_tags : List (List Char) :=
  ["nfs".data, "cifs".data, "smb".data, "fuse".data]

/-- The source's `cpu_rec` local: base recommendation from CPU and file sizes. -/
def cpu_rec_of (cpu_count small_files medium_files large_files : Nat) : Nat :=
  if small_files > medium_files + large_files then min (max 4 (cpu_count * 2)) 32
  else min (max 2 cpu_count) 16

/-- The source's `io_rec` local: disk-write-speed cap.  `int()` on a positive
float is the floor; `if disk_speed_MBps and disk_speed_MBps > 0` makes `None`
and `0.0` fall back to the CPU cap. -/
def io_rec_of (cpu_rec : Nat) (disk_speed_MBps : Option ℚ) : Nat :=
  match disk_speed_MBps with
  | some s => if s ≠ 0 ∧ 0 < s then max 2 (min ((s / 20).floor.toNat + 1) 16) else cpu_rec
  | none => cpu_rec

/-- The source's `is_network_fs` local: truthy `dest_fs` containing one of the
network-filesystem tags, case-insensitively. -/
def is_network_fs_of (dest_fs : Option (List Char)) : Bool :=
  match dest_fs with
  | some f => decide (f ≠ []) && network_fs_tags.any fun tag => containsSub tag (toLowerStr f)
  | none => false

/-- `recommend_thread_count(cpu_count, file_stats, disk_speed_MBps, dest_fs)`:
the most conservative of the three caps. -/
def recommend_thread_count (cpu_count : Nat)
    (small_files medium_files large_files : Nat)
    (disk_speed_MBps : Option ℚ) (dest_fs : Option (List Char)) : Nat :=
  let cpu_rec := cpu_rec_of cpu_count small_files medium_files large_files
  let io_rec := io_rec_of cpu_rec disk_speed_MBps
  let net_rec := if is_network_fs_of dest_fs then cpu_count else cpu_rec
  min cpu_rec (min io_rec net_rec)

/-! ### Concrete instances used by counterexamples and witnesses -/

/-- A destination where nothing exists. -/
def fsEmpty : List Char → FileState := fun _ => .absent

/-- A destination where every path is an existing removable file. -/
def fsAll : List Char → FileState := fun _ => .present

/-- A `Files` row with an empty (non-NULL) `contentID`: per the repository's
own `get_db_stats` comments and `test_skips_directories`, a directory node. -/
def rowsC2 : List MetadataRow := [⟨1, "dir2".data, none, some []⟩]

/-- A root-marker row plus a user folder that reuses the marker's name as an
interior path segment: `top/auth|root/f.txt`. -/
def rowsC3 : List MetadataRow :=
  [⟨1, "auth|root".data, none, none⟩,
   ⟨2, "top".data, none, none⟩,
   ⟨3, "auth|root".data, some 2, none⟩,
   ⟨4, "f.txt".data, some 3, some "c1".data⟩]

/-- One content-bearing row whose blob exists in the store. -/
def rowsC4 : List MetadataRow := [⟨1, "f.txt".data, none, some "abc".data⟩]

/-- The farm path of `rowsC4`'s row is occupied by a regular file. -/
def farm0C4 : List (List Char × FarmEntry) := [("/farm/f.txt".data, .file)]

/-- A one-entry parent lookup whose single row has no parent. -/
def lkC8 : List (Nat × List Char × Option Nat) := [(1, "a".data, none)]

/-- Scenario F, first fed line (rsync `--progress` output). -/
def lineF1 : List Char := "  1,048,576  50%  1.00MB/s    0:00:10".data

/-- Scenario F, second fed line (rsync transfer-index marker). -/
def lineF2 : List Char := "xfr#3, to-chk=7/10".data

/-- The shared transfer state after the runner consumed both Scenario F lines. -/
def stateF : RsyncMonitor :=
  parse_rsync_progress lineF2 (parse_rsync_progress lineF1 initMonitor)

/-! ## Helper lemmas -/

theorem foldl_deleteStep_dry (dest : List Char) :
    ∀ (paths : List (List Char)) (st : (List Char → FileState) × Nat × Nat),
      List.foldl (deleteStep dest true) st paths = (st.1, st.2.1 + paths.length, st.2.2) := by
  intro paths
  induction paths with
  | nil => intro st; simp
  | cons p l ih =>
    intro st
    have hstep : deleteStep dest true st p = (st.1, st.2.1 + 1, st.2.2) := rfl
    rw [List.foldl_cons, hstep, ih]
    simp only [List.length_cons]
    have harith : st.2.1 + 1 + l.length = st.2.1 + (l.length + 1) := by omega
    rw [harith]

theorem foldl_deleteStep_real (dest : List Char) :
    ∀ (paths : List (List Char)) (fs : List Char → FileState) (d e : Nat),
      (paths.map (osPathJoin dest)).Nodup →
      (∀ q ∈ paths, fs (osPathJoin dest q) = .present) →
      (List.foldl (deleteStep dest false) (fs, d, e) paths).2.1 = d + paths.length ∧
      (List.foldl (deleteStep dest false) (fs, d, e) paths).2.2 = e := by
  intro paths
  induction paths with
  | nil => intro fs d e _ _; simp
  | cons p l ih =>
    intro fs d e hnd hall
    have hp : fs (osPathJoin dest p) = .present := hall p (by simp)
    have hstep : deleteStep dest false (fs, d, e) p =
        (removeFile fs (osPathJoin dest p), d + 1, e) := by
      simp [deleteStep, hp]
    rw [List.map_cons] at hnd
    have hnd0 := List.nodup_cons.mp hnd
    have hall' : ∀ q ∈ l, (removeFile fs (osPathJoin dest p)) (osPathJoin dest q) = .present := by
      intro q hq
      have hne : osPathJoin dest q ≠ osPathJoin dest p := by
        intro hEq
        exact hnd0.1 (hEq ▸ List.mem_map_of_mem _ hq)
      show (if osPathJoin dest q = osPathJoin dest p then FileState.absent
            else fs (osPathJoin dest q)) = .present
      rw [if_neg hne]
      exact hall q (List.mem_cons_of_mem _ hq)
    have := ih (removeFile fs (osPathJoin dest p)) (d + 1) e hnd0.2 hall'
    rw [List.foldl_cons, hstep]
    refine ⟨?_, this.2⟩
    rw [this.1]
    simp only [List.length_cons]
    omega

theorem foldl_deleteStep_sum (dest : List Char) (dry : Bool) :
    ∀ (paths : List (List Char)) (st : (List Char → FileState) × Nat × Nat),
      (List.foldl (deleteStep dest dry) st paths).2.1 +
        (List.foldl (deleteStep dest dry) st paths).2.2 =
        st.2.1 + st.2.2 + paths.length := by
  intro paths
  induction paths with
  | nil => intro st; simp
  | cons p l ih =>
    intro st
    rw [List.foldl_cons, ih]
    have hstep : (deleteStep dest dry st p).2.1 + (deleteStep dest dry st p).2.2 =
        st.2.1 + st.2.2 + 1 := by
      unfold deleteStep
      by_cases hd : dry
      · simp [hd]
        omega
      · simp only [hd, Bool.false_eq_true, if_false]
        cases hfs : st.1 (osPathJoin dest p) <;> (simp; omega)
    simp only [List.length_cons]
    omega

/-! ## Claim theorems -/

/-- C2: the claim states a row is a file iff `contentID` is non-null AND
non-empty, and empty-`contentID` rows never reach the canonical path set or
symlink creation.  The code disagrees with the claim (and with its own
`get_db_stats`, whose comments and the `test_skips_directories` test treat
empty `contentID` as directories): `get_canonical_paths_from_db` and
`create_symlink_farm_streaming` filter only `contentID IS NOT NULL`.  On a row
with `contentID = ''` the canonical set receives the row's path while
`get_db_stats` counts the same row as a directory, and the farm builder
reaches `content_id[0]` and raises `IndexError`. -/
theorem C2_empty_contentid_treated_as_file :
    get_canonical_paths_from_db rowsC2 = some ["dir2".data] ∧
    get_db_stats rowsC2 = (0, 1) ∧
    create_symlink_farm_streaming rowsC2 "/src".data [] "/farm".data [] false 0 =
      Except.error "IndexError: string index out of range".data := by
  decide

/-- C5 counterexample: delete with `dry_run=True` reports `1` for a
single-path list whose file is already gone, while a real delete of the same
list reports `0` deleted (counting the failure as an error), so the claimed
count equality fails. -/
theorem C5_counterexample :
    ¬ ((delete_orphans fsEmpty "/dest".data ["a.txt".data] false).2.1 =
        (delete_orphans fsEmpty "/dest".data ["a.txt".data] true).2.1) := by
  decide

/-- C5 amended: dry-run delete performs no filesystem mutation, reports
`deleted = length of the list` and `errors = 0`; the real delete reports the
same deleted count provided every listed path resolves to a distinct, existing,
removable destination file (a missing, duplicated, or permission-blocked entry
makes the real run count an error instead). -/
theorem C5_amended_dry_run (fs : List Char → FileState) (dest : List Char)
    (paths : List (List Char)) :
    (delete_orphans fs dest paths true).1 = fs ∧
    (delete_orphans fs dest paths true).2.1 = paths.length ∧
    (delete_orphans fs dest paths true).2.2 = 0 ∧
    ((paths.map (osPathJoin dest)).Nodup →
      (∀ q ∈ paths, fs (osPathJoin dest q) = FileState.present) →
      (delete_orphans fs dest paths false).2.1 = (delete_orphans fs dest paths true).2.1) := by
  have hdry : delete_orphans fs dest paths true = (fs, paths.length, 0) := by
    unfold delete_orphans
    rw [foldl_deleteStep_dry dest paths (fs, 0, 0)]
    simp
  refine ⟨?_, ?_, ?_, ?_⟩
  · rw [hdry]
  · rw [hdry]
  · rw [hdry]
  · intro hnd hall
    have hreal := foldl_deleteStep_real dest paths fs 0 0 hnd hall
    have h1 : (delete_orphans fs dest paths false).2.1 = paths.length := by
      unfold delete_orphans
      rw [hreal.1]
      omega
    rw [h1, hdry]

theorem C5_amended_witness :
    (delete_orphans fsAll "/d".data ["x".data] false).2.1 =
      (delete_orphans fsAll "/d".data ["x".data] true).2.1 :=
  (C5_amended_dry_run fsAll "/d".data ["x".data]).2.2.2 (by decide) (by decide)

/-- C9: `delete_orphans` accounts for every listed path exactly once:
`deleted + errors` equals the length of the input list in both modes, and in
dry-run mode `errors` is `0`. -/
theorem C9_delete_accounting (fs : List Char → FileState) (dest : List Char)
    (paths : List (List Char)) (dry : Bool) :
    (delete_orphans fs dest paths dry).2.1 + (delete_orphans fs dest paths dry).2.2 =
      paths.length ∧
    (dry = true → (delete_orphans fs dest paths dry).2.2 = 0) := by
  constructor
  · have h := foldl_deleteStep_sum dest dry paths (fs, 0, 0)
    unfold delete_orphans
    rw [h]
    simp
  · intro hd
    subst hd
    have h := foldl_deleteStep_dry dest paths (fs, 0, 0)
    unfold delete_orphans
    rw [h]

theorem C9_witness :
    (delete_orphans fsEmpty "/d".data ["a".data, "b".data] true).2.1 +
      (delete_orphans fsEmpty "/d".data ["a".data, "b".data] true).2.2 = 2 ∧
    (delete_orphans fsEmpty "/d".data ["a".data, "b".data] true).2.2 = 0 :=
  ⟨(C9_delete_accounting fsEmpty "/d".data ["a".data, "b".data] true).1,
   (C9_delete_accounting fsEmpty "/d".data ["a".data, "b".data] true).2 rfl⟩

/-- C6: feeding the parser `"  1,048,576  50%  1.00MB/s    0:00:10"` and then
`"xfr#3, to-chk=7/10"` yields bytes `1048576`, percent `50`, speed
`1048576` bytes/s (`M` normalized as `1024²`), eta `"0:00:10"`, three files
transferred, and no recorded errors. -/
theorem C6_scenario_f_progress_parse :
    stateF.bytes_transferred = 1048576 ∧
    stateF.percent_complete = 50 ∧
    stateF.transfer_speed = 1048576 ∧
    stateF.eta = "0:00:10".data ∧
    stateF.files_transferred = 3 ∧
    stateF.errors = [] := by
  refine ⟨by decide, by decide, ?_, by decide, by decide, by decide⟩
  have h : stateF.transfer_speed = ((1 : ℚ) + (0 : ℚ) / 10 ^ 2) * ((1024 ^ 2 : Nat) : ℚ) := rfl
  rw [h]
  norm_num

/-- C4 counterexample: the blob of `rowsC4`'s row exists, its farm path is
occupied by a regular (non-symlink) file, and the run returns
`created = 0, skipped = 1, errors = 0` with the occupying entry untouched —
the skip is counted in `skipped`, not in `errors` as the claim states. -/
theorem C4_counterexample_occupied_counts_skipped :
    create_symlink_farm_streaming rowsC4 "/src".data ["/src/a/abc".data] "/farm".data
      farm0C4 false 0 = Except.ok ⟨0, 1, 0, farm0C4⟩ := by
  decide

theorem scan_foldl_eq (c p : List (List Char)) :
    ∀ (files : List (List Char)) (res : ScanResult),
      List.foldl (scanStep c p) res files =
        ⟨res.orphans ++ files.filter (fun f => !matches_pattern f p && !(decide (normalizePath f ∈ c))),
         res.protectedFiles ++ files.filter (fun f => matches_pattern f p),
         res.matched ++ files.filter (fun f => !matches_pattern f p && decide (normalizePath f ∈ c))⟩ := by
  intro files
  induction files with
  | nil => intro res; simp
  | cons f l ih =>
    intro res
    rw [List.foldl_cons, ih]
    by_cases hm : matches_pattern f p
    · simp [scanStep, hm, List.filter_cons]
    · by_cases hc : normalizePath f ∈ c
      · simp [scanStep, hm, hc, List.filter_cons]
      · simp [scanStep, hm, hc, List.filter_cons]

theorem perm_filter_partition {α : Type} (p q : α → Bool) :
    ∀ l : List α,
      List.Perm
        (l.filter (fun a => !p a && q a) ++ l.filter p ++ l.filter (fun a => !p a && !q a)) l := by
  intro l
  induction l with
  | nil => simp
  | cons a l ih =>
    by_cases hp : p a
    · have hM : (a :: l).filter (fun a => !p a && q a) = l.filter (fun a => !p a && q a) := by
        simp [List.filter_cons, hp]
      have hP : (a :: l).filter p = a :: l.filter p := by
        simp [List.filter_cons, hp]
      have hO : (a :: l).filter (fun a => !p a && !q a) = l.filter (fun a => !p a && !q a) := by
        simp [List.filter_cons, hp]
      rw [hM, hP, hO]
      have h1 : l.filter (fun a => !p a && q a) ++ (a :: l.filter p) ++
            l.filter (fun a => !p a && !q a) =
          l.filter (fun a => !p a && q a) ++
            a :: (l.filter p ++ l.filter (fun a => !p a && !q a)) := by
        simp [List.append_assoc]
      rw [h1]
      refine List.perm_middle.trans ?_
      refine (List.Perm.cons a ?_).trans (ih.cons a)
      simp [List.append_assoc]
    · by_cases hq : q a
      · have hM : (a :: l).filter (fun a => !p a && q a) =
            a :: l.filter (fun a => !p a && q a) := by
          simp [List.filter_cons, hp, hq]
        have hP : (a :: l).filter p = l.filter p := by
          simp [List.filter_cons, hp]
        have hO : (a :: l).filter (fun a => !p a && !q a) = l.filter (fun a => !p a && !q a) := by
          simp [List.filter_cons, hp, hq]
        rw [hM, hP, hO]
        exact ih.cons a
      · have hM : (a :: l).filter (fun a => !p a && q a) = l.filter (fun a => !p a && q a) := by
          simp [List.filter_cons, hp, hq]
        have hP : (a :: l).filter p = l.filter p := by
          simp [List.filter_cons, hp]
        have hO : (a :: l).filter (fun a => !p a && !q a) =
            a :: l.filter (fun a => !p a && !q a) := by
          simp [List.filter_cons, hp, hq]
        rw [hM, hP, hO]
        have h1 : l.filter (fun a => !p a && q a) ++ l.filter p ++
            (a :: l.filter (fun a => !p a && !q a)) =
            (l.filter (fun a => !p a && q a) ++ l.filter p) ++
              a :: l.filter (fun a => !p a && !q a) := by
          simp [List.append_assoc]
        rw [h1]
        refine List.perm_middle.trans ?_
        refine (List.Perm.cons a ?_).trans (ih.cons a)
        simp [List.append_assoc]

/-- C1: the scan classifies each scanned file into exactly one of
matched / protected / orphan — the three lists are pairwise disjoint, their
concatenation is a permutation of the scanned file list, and a file matching a
protect pattern lands in `protected` even when its normalized path is in the
canonical set (protection short-circuits). -/
theorem C1_scan_partition (files canonical_paths protect_patterns cleanup_patterns :
    List (List Char)) :
    (∀ f, ¬ (f ∈ (scan_destination_for_orphans files canonical_paths protect_patterns
          cleanup_patterns).protectedFiles ∧
        f ∈ (scan_destination_for_orphans files canonical_paths protect_patterns
          cleanup_patterns).matched)) ∧
    (∀ f, ¬ (f ∈ (scan_destination_for_orphans files canonical_paths protect_patterns
          cleanup_patterns).protectedFiles ∧
        f ∈ (scan_destination_for_orphans files canonical_paths protect_patterns
          cleanup_patterns).orphans)) ∧
    (∀ f, ¬ (f ∈ (scan_destination_for_orphans files canonical_paths protect_patterns
          cleanup_patterns).matched ∧
        f ∈ (scan_destination_for_orphans files canonical_paths protect_patterns
          cleanup_patterns).orphans)) ∧
    List.Perm
      ((scan_destination_for_orphans files canonical_paths protect_patterns
          cleanup_patterns).matched ++
        (scan_destination_for_orphans files canonical_paths protect_patterns
          cleanup_patterns).protectedFiles ++
        (scan_destination_for_orphans files canonical_paths protect_patterns
          cleanup_patterns).orphans)
      files ∧
    (∀ f ∈ files, matches_pattern f protect_patterns = true →
      f ∈ (scan_destination_for_orphans files canonical_paths protect_patterns
        cleanup_patterns).protectedFiles) := by
  have hr : scan_destination_for_orphans files canonical_paths protect_patterns
      cleanup_patterns =
      ⟨files.filter (fun f => !matches_pattern f protect_patterns &&
          !(decide (normalizePath f ∈ canonical_paths))),
       files.filter (fun f => matches_pattern f protect_patterns),
       files.filter (fun f => !matches_pattern f protect_patterns &&
          decide (normalizePath f ∈ canonical_paths))⟩ := by
    unfold scan_destination_for_orphans
    rw [scan_foldl_eq]
    simp
  rw [hr]
  refine ⟨?_, ?_, ?_, ?_, ?_⟩
  · rintro f ⟨h1, h2⟩
    rw [List.mem_filter] at h1 h2
    have := h2.2
    rw [Bool.and_eq_true] at this
    rw [h1.2] at this
    simp at this
  · rintro f ⟨h1, h2⟩
    rw [List.mem_filter] at h1 h2
    have := h2.2
    rw [Bool.and_eq_true] at this
    rw [h1.2] at this
    simp at this
  · rintro f ⟨h1, h2⟩
    rw [List.mem_filter] at h1 h2
    have ha := h1.2
    have hb := h2.2
    rw [Bool.and_eq_true] at ha hb
    rw [ha.1] at hb
    have h3 := ha.2
    have h4 := hb.2
    simp at h3 h4
    exact absurd h3 h4
  · exact perm_filter_partition (fun f => matches_pattern f protect_patterns)
      (fun f => decide (normalizePath f ∈ canonical_paths)) files
  · intro f hf hm
    exact List.mem_filter.mpr ⟨hf, hm⟩

theorem C1_scan_partition_witness :
    "Photos/a.jpg".data ∈
      (scan_destination_for_orphans ["Photos/a.jpg".data] ["Photos/a.jpg".data]
        ["Photos/*".data] []).protectedFiles :=
  (C1_scan_partition ["Photos/a.jpg".data] ["Photos/a.jpg".data] ["Photos/*".data]
      []).2.2.2.2 "Photos/a.jpg".data (by decide) (by decide)

theorem globMatchFuel_self :
    ∀ (p : List Char) (fuel : Nat), (∀ c ∈ p, c ≠ '*' ∧ c ≠ '?' ∧ c ≠ '[') →
      p.length < fuel → globMatchFuel fuel p p = true := by
  intro p
  induction p with
  | nil =>
    intro fuel _ hf
    cases fuel with
    | zero => omega
    | succ f => simp [globMatchFuel]
  | cons c ps ih =>
    intro fuel hc hf
    cases fuel with
    | zero => omega
    | succ f =>
      have h0 := hc c (by simp)
      show globMatchFuel (f + 1) (c :: ps) (c :: ps) = true
      unfold globMatchFuel
      rw [if_neg h0.1, if_neg h0.2.1, if_neg h0.2.2]
      simp only [Bool.and_eq_true, decide_eq_true_eq]
      refine ⟨trivial, ?_⟩
      apply ih
      · intro a ha
        exact hc a (List.mem_cons_of_mem c ha)
      · simp at hf
        omega

theorem splitOnChar_cons (sep c : Char) (rest : List Char) :
    splitOnChar sep (c :: rest) =
      match splitOnChar sep rest with
      | [] => [[]]
      | s :: ss => if c = sep then [] :: s :: ss else (c :: s) :: ss := rfl

theorem splitOnChar_ne_nil (sep : Char) : ∀ l : List Char, splitOnChar sep l ≠ [] := by
  intro l
  cases l with
  | nil => simp [splitOnChar]
  | cons c rest =>
    rw [splitOnChar_cons]
    cases h : splitOnChar sep rest with
    | nil => simp
    | cons s ss =>
      dsimp only
      split <;> simp

theorem splitOnChar_append (p rest : List Char) (hp : '/' ∉ p) :
    splitOnChar '/' (p ++ '/' :: rest) = p :: splitOnChar '/' rest := by
  induction p with
  | nil =>
    simp only [List.nil_append]
    rw [splitOnChar_cons]
    cases h : splitOnChar '/' rest with
    | nil => exact absurd h (splitOnChar_ne_nil '/' rest)
    | cons s ss => simp
  | cons c p' ih =>
    have hc : c ≠ '/' := fun hEq => hp (hEq ▸ List.mem_cons_self c p')
    have hp' : '/' ∉ p' := fun hmem => hp (List.mem_cons_of_mem c hmem)
    simp only [List.cons_append]
    rw [splitOnChar_cons, ih hp']
    simp [hc]

theorem dropWhile_append_all {α : Type} (P : α → Bool) :
    ∀ (l1 l2 : List α), (∀ a ∈ l1, P a = true) →
      (l1 ++ l2).dropWhile P = l2.dropWhile P := by
  intro l1
  induction l1 with
  | nil => intro l2 _; simp
  | cons a l ih =>
    intro l2 h
    rw [List.cons_append, List.dropWhile_cons, if_pos (h a (by simp))]
    exact ih l2 fun b hb => h b (List.mem_cons_of_mem a hb)

theorem rstripSet_append (chars p0 t : List Char) (x : Char) (hx : x ∉ chars)
    (ht : ∀ c ∈ t, c ∈ chars) :
    rstripSet chars ((p0 ++ [x]) ++ t) = p0 ++ [x] := by
  unfold rstripSet
  rw [List.reverse_append, List.reverse_append]
  rw [dropWhile_append_all _ t.reverse _
    (by intro a ha; rw [List.mem_reverse] at ha; simpa using ht a ha)]
  simp only [List.reverse_cons, List.reverse_nil, List.nil_append, List.singleton_append]
  rw [List.dropWhile_cons, if_neg (by simpa using hx)]
  simp

/-- C10: `matches_pattern` strips every trailing `/` and `*` from a pattern
before the ancestor-prefix check, so a bare wildcard-free directory-name
pattern (with any trailing run of `/` and `*`, including none) matches every
file nested at any depth under that directory. -/
theorem C10_bare_directory_pattern (p t rest : List Char)
    (hp : p ≠ []) (hslash : '/' ∉ p) (hstar : '*' ∉ p) (hq : '?' ∉ p) (hbr : '[' ∉ p)
    (ht : ∀ c ∈ t, c = '/' ∨ c = '*') (_hrest : rest ≠ []) :
    matches_pattern (p ++ '/' :: rest) [p ++ t] = true := by
  have hparts : splitOnChar '/' (p ++ '/' :: rest) = p :: splitOnChar '/' rest :=
    splitOnChar_append p rest hslash
  have hstrip : rstripSet ['/', '*'] (p ++ t) = p := by
    cases hrev : p.reverse with
    | nil => exact absurd (by simpa using congrArg List.reverse hrev) hp
    | cons x rp =>
      have hpeq : p = rp.reverse ++ [x] := by
        have := congrArg List.reverse hrev
        simpa using this
      have hxp : x ∈ p := by rw [hpeq]; simp
      have hx : x ∉ (['/', '*'] : List Char) := by
        intro hmem
        simp only [List.mem_cons, List.not_mem_nil, or_false] at hmem
        rcases hmem with h | h
        · exact hslash (h ▸ hxp)
        · exact hstar (h ▸ hxp)
      have ht' : ∀ c ∈ t, c ∈ (['/', '*'] : List Char) := by
        intro c hc
        rcases ht c hc with h | h <;> simp [h]
      calc rstripSet ['/', '*'] (p ++ t)
          = rstripSet ['/', '*'] ((rp.reverse ++ [x]) ++ t) := by rw [← hpeq]
        _ = rp.reverse ++ [x] := rstripSet_append _ _ _ _ hx ht'
        _ = p := hpeq.symm
  have hself : fnmatch p p = true := by
    unfold fnmatch globMatch
    apply globMatchFuel_self
    · intro c hc
      exact ⟨fun h => hstar (h ▸ hc), fun h => hq (h ▸ hc), fun h => hbr (h ▸ hc)⟩
    · omega
  unfold matches_pattern
  simp only [List.any_cons, List.any_nil, Bool.or_false, Bool.or_eq_true]
  refine Or.inr ?_
  show ((List.range (splitOnChar '/' (p ++ '/' :: rest)).length).any fun i =>
      fnmatch (joinSep '/' ((splitOnChar '/' (p ++ '/' :: rest)).take (i + 1)))
        (rstripSet ['/', '*'] (p ++ t))) = true
  rw [hparts]
  apply List.any_eq_true.mpr
  refine ⟨0, ?_, ?_⟩
  · simp [List.mem_range]
  · simpa [joinSep, hstrip] using hself

theorem C10_witness :
    matches_pattern ("Folder".data ++ '/' :: "sub/file.txt".data)
      ["Folder".data ++ "/*".data] = true :=
  C10_bare_directory_pattern "Folder".data "/*".data "sub/file.txt".data (by decide)
    (by decide) (by decide) (by decide) (by decide) (by decide) (by decide)

theorem replaceAllFuel_not_contains :
    ∀ (s : List Char) (fuel : Nat) (pat sub : List Char), pat ≠ [] →
      containsSub pat s = false → s.length < fuel →
      replaceAllFuel fuel s pat sub = s := by
  intro s
  induction s with
  | nil =>
    intro fuel pat sub _ _ hf
    cases fuel with
    | zero => omega
    | succ f => rfl
  | cons c rest ih =>
    intro fuel pat sub hpat hcont hf
    cases fuel with
    | zero => simp at hf
    | succ f =>
      have h1 : pat.isPrefixOf (c :: rest) = false ∧ containsSub pat rest = false := by
        have h0 : (pat.isPrefixOf (c :: rest) || containsSub pat rest) = false := hcont
        simpa [Bool.or_eq_false_iff] using h0
      have hneg : ¬ (pat ≠ [] ∧ pat.isPrefixOf (c :: rest) = true) := by
        intro hcontra
        rw [h1.1] at hcontra
        exact Bool.noConfusion hcontra.2
      show (if pat ≠ [] ∧ pat.isPrefixOf (c :: rest) = true then
          sub ++ replaceAllFuel f ((c :: rest).drop pat.length) pat sub
        else c :: replaceAllFuel f rest pat sub) = c :: rest
      rw [if_neg hneg]
      rw [ih f pat sub hpat h1.2 (by simp only [List.length_cons] at hf; omega)]

theorem replaceAllFuel_head_occurrence (pat rest : List Char) (fuel : Nat)
    (hpat : pat ≠ []) (hcont : containsSub pat rest = false)
    (hf : (pat ++ rest).length < fuel) :
    replaceAllFuel fuel (pat ++ rest) pat [] = rest := by
  cases fuel with
  | zero => omega
  | succ f =>
    cases pat with
    | nil => exact absurd rfl hpat
    | cons a pat' =>
      have hpre : (a :: pat').isPrefixOf ((a :: pat') ++ rest) = true :=
        List.isPrefixOf_iff_prefix.mpr (List.prefix_append _ _)
      show (if (a :: pat') ≠ [] ∧ (a :: pat').isPrefixOf (a :: (pat' ++ rest)) = true then
          [] ++ replaceAllFuel f ((a :: (pat' ++ rest)).drop (a :: pat').length) (a :: pat') []
        else a :: replaceAllFuel f (pat' ++ rest) (a :: pat') []) = rest
      rw [if_pos ⟨by simp, hpre⟩]
      rw [show ((a : Char) :: (pat' ++ rest)).drop (a :: pat').length = rest from
        List.drop_left (a :: pat') rest]
      rw [replaceAllFuel_not_contains rest f (a :: pat') [] (by simp) hcont
        (by simp at hf; omega)]
      rfl

theorem containsSub_of_append :
    ∀ (s pat q : List Char), containsSub (pat ++ q) s = true → containsSub pat s = true := by
  intro s
  induction s with
  | nil =>
    intro pat q h
    simp [containsSub, List.isEmpty_iff] at h ⊢
    exact h.1
  | cons c rest ih =>
    intro pat q h
    rw [show containsSub (pat ++ q) (c :: rest) =
        ((pat ++ q).isPrefixOf (c :: rest) || containsSub (pat ++ q) rest) from rfl] at h
    rw [show containsSub pat (c :: rest) =
        (pat.isPrefixOf (c :: rest) || containsSub pat rest) from rfl]
    rw [Bool.or_eq_true] at h ⊢
    rcases h with h | h
    · left
      rw [List.isPrefixOf_iff_prefix] at h ⊢
      exact (List.prefix_append pat q).trans h
    · right
      exact ih pat q h

theorem containsSub_append_false (s pat q : List Char) (h : containsSub pat s = false) :
    containsSub (pat ++ q) s = false := by
  cases hc : containsSub (pat ++ q) s with
  | false => rfl
  | true => rw [containsSub_of_append s pat q hc] at h; exact Bool.noConfusion h

/-- C3 counterexample: with root-marker name `auth|root` detected from the
first row, the file resolved as `top/auth|root/f.txt` — whose marker
occurrence is an interior path segment, not a leading prefix — is recorded as
`top/f.txt`: the interior occurrence is removed, contradicting the claim that
only a leading prefix is stripped. -/
theorem C3_counterexample_interior_occurrence :
    get_canonical_paths_from_db rowsC3 = some ["top/f.txt".data] ∧
    "top/auth|root/f.txt".data ∉ (get_canonical_paths_from_db rowsC3).getD [] := by
  decide

/-- C3 amended: the detected marker name is removed at every occurrence in a
resolved path (`replace(root_dir + '/', '')` then `replace(root_dir, '')`),
not only as a leading prefix; a resolved path not containing the marker is
returned intact apart from the final `lstrip('/')`, the leading-prefix case
behaves as the original claim says, and with no marker row only the
`lstrip('/')` is applied. -/
theorem C3_amended_marker_stripping :
    (∀ rd p : List Char, rd ≠ [] → containsSub rd p = false →
      stripRoot (some rd) p = lstripChar '/' p) ∧
    (∀ rd rest : List Char, rd ≠ [] → containsSub rd rest = false →
      stripRoot (some rd) (rd ++ '/' :: rest) = lstripChar '/' rest) ∧
    (∀ p : List Char, stripRoot none p = lstripChar '/' p) := by
  refine ⟨?_, ?_, ?_⟩
  · intro rd p hrd hcont
    have h1 : containsSub (rd ++ ['/']) p = false := containsSub_append_false p rd ['/'] hcont
    have hstep : stripRoot (some rd) p =
        lstripChar '/' (replaceAll (replaceAll p (rd ++ ['/']) []) rd []) := by
      simp only [stripRoot]
      rw [if_pos hrd]
    rw [hstep]
    rw [show replaceAll p (rd ++ ['/']) [] =
        replaceAllFuel (p.length + 1) p (rd ++ ['/']) [] from rfl]
    rw [replaceAllFuel_not_contains p (p.length + 1) (rd ++ ['/']) [] (by simp) h1 (by omega)]
    rw [show replaceAll p rd [] = replaceAllFuel (p.length + 1) p rd [] from rfl]
    rw [replaceAllFuel_not_contains p (p.length + 1) rd [] hrd hcont (by omega)]
  · intro rd rest hrd hcont
    have hform : rd ++ '/' :: rest = (rd ++ ['/']) ++ rest := by simp
    have h1 : containsSub (rd ++ ['/']) rest = false :=
      containsSub_append_false rest rd ['/'] hcont
    have hstep : stripRoot (some rd) (rd ++ '/' :: rest) =
        lstripChar '/' (replaceAll (replaceAll (rd ++ '/' :: rest) (rd ++ ['/']) []) rd []) := by
      simp only [stripRoot]
      rw [if_pos hrd]
    rw [hstep, hform]
    rw [show replaceAll ((rd ++ ['/']) ++ rest) (rd ++ ['/']) [] =
        replaceAllFuel (((rd ++ ['/']) ++ rest).length + 1) ((rd ++ ['/']) ++ rest)
          (rd ++ ['/']) [] from rfl]
    rw [replaceAllFuel_head_occurrence (rd ++ ['/']) rest _ (by simp) h1 (by omega)]
    rw [show replaceAll rest rd [] = replaceAllFuel (rest.length + 1) rest rd [] from rfl]
    rw [replaceAllFuel_not_contains rest (rest.length + 1) rd [] hrd hcont (by omega)]
  · intro p
    rfl

theorem C3_amended_witness :
    stripRoot (some "r".data) ("r".data ++ '/' :: "a/b.txt".data) =
      lstripChar '/' "a/b.txt".data :=
  C3_amended_marker_stripping.2.1 "r".data "a/b.txt".data (by decide) (by decide)

/-- C4 amended: a content-bearing row whose blob exists but whose farm path is
occupied by something that exists and is not a symlink is skipped and counted
in the `skipped` counter (not in `errors`, as the claim states), and the
occupying entry is left untouched.  Stated for a run over such a row with no
root marker. -/
theorem C4_amended_occupied_path_skipped
    (idv : Nat) (name : List Char) (c0 : Char) (cid' : List Char)
    (source_dir farm_dir : List Char) (sourceExists : List (List Char))
    (farm0 : List (List Char × FarmEntry))
    (hm : markerLike name = false)
    (hne : lstripChar '/' name ≠ [])
    (hsrc : osPathJoin (osPathJoin source_dir [c0]) (c0 :: cid') ∈ sourceExists)
    (hocc : farmLookup farm0 (osPathJoin farm_dir (lstripChar '/' name)) =
      some FarmEntry.file) :
    create_symlink_farm_streaming [⟨idv, name, none, some (c0 :: cid')⟩] source_dir
      sourceExists farm_dir farm0 false 0 = Except.ok ⟨0, 1, 0, farm0⟩ := by
  have hroot : findRootDir [⟨idv, name, none, some (c0 :: cid')⟩] = none := by
    simp [findRootDir, List.find?, hm]
  simp only [create_symlink_farm_streaming, hroot]
  simp only [parentLookup, List.map, List.filter, Option.isSome, farmLoop, walkFuel,
    joinSep, stripRoot]
  rw [if_neg (by omega : ¬ ((0 : Nat) > 0 ∧ (0 : Nat) ≥ 0))]
  simp only [Bool.false_eq_true, if_false]
  rw [if_neg hne, if_pos hsrc]
  rw [hocc]

theorem C4_amended_witness :
    create_symlink_farm_streaming [⟨1, "f.txt".data, none, some "abc".data⟩] "/src".data
      ["/src/a/abc".data] "/farm".data [("/farm/f.txt".data, FarmEntry.file)] false 0 =
      Except.ok ⟨0, 1, 0, [("/farm/f.txt".data, FarmEntry.file)]⟩ :=
  C4_amended_occupied_path_skipped 1 "f.txt".data 'a' "bc".data "/src".data "/farm".data
    ["/src/a/abc".data] [("/farm/f.txt".data, FarmEntry.file)] (by decide) (by decide)
    (by decide) (by decide)

/-- C7: for fixed core count, histogram, and filesystem tag, the recommended
thread count is monotone non-decreasing in the measured destination write
throughput over positive values; and a tag containing `nfs`/`cifs`/`smb`/`fuse`
(case-insensitive substring) keeps the recommendation at or below the raw core
count. -/
theorem C7_thread_recommendation :
    (∀ (cpu_count small_files medium_files large_files : Nat)
        (dest_fs : Option (List Char)) (s1 s2 : ℚ), 0 < s1 → s1 ≤ s2 →
      recommend_thread_count cpu_count small_files medium_files large_files
          (some s1) dest_fs ≤
        recommend_thread_count cpu_count small_files medium_files large_files
          (some s2) dest_fs) ∧
    (∀ (cpu_count small_files medium_files large_files : Nat) (disk_speed : Option ℚ)
        (f tag : List Char), tag ∈ network_fs_tags →
      containsSub tag (toLowerStr f) = true →
      recommend_thread_count cpu_count small_files medium_files large_files disk_speed
        (some f) ≤ cpu_count) := by
  constructor
  · intro cpu_count small_files medium_files large_files dest_fs s1 s2 h1 h12
    have h2 : 0 < s2 := lt_of_lt_of_le h1 h12
    have hfloor : (s1 / 20).floor ≤ (s2 / 20).floor := by
      show ⌊s1 / 20⌋ ≤ ⌊s2 / 20⌋
      apply Int.floor_le_floor
      apply div_le_div_of_nonneg_right h12
      norm_num
    have htn := Int.toNat_le_toNat hfloor
    have hio : io_rec_of (cpu_rec_of cpu_count small_files medium_files large_files)
        (some s1) ≤
        io_rec_of (cpu_rec_of cpu_count small_files medium_files large_files) (some s2) := by
      show (if s1 ≠ 0 ∧ 0 < s1 then max 2 (min ((s1 / 20).floor.toNat + 1) 16)
          else cpu_rec_of cpu_count small_files medium_files large_files) ≤
        (if s2 ≠ 0 ∧ 0 < s2 then max 2 (min ((s2 / 20).floor.toNat + 1) 16)
          else cpu_rec_of cpu_count small_files medium_files large_files)
      rw [if_pos ⟨ne_of_gt h1, h1⟩, if_pos ⟨ne_of_gt h2, h2⟩]
      exact max_le_max (le_refl 2) (min_le_min (by omega) (le_refl 16))
    simp only [recommend_thread_count]
    exact min_le_min (le_refl _) (min_le_min hio (le_refl _))
  · intro cpu_count small_files medium_files large_files disk_speed f tag htag hsub
    have hf : f ≠ [] := by
      intro hEq
      subst hEq
      rw [show toLowerStr ([] : List Char) = [] from rfl] at hsub
      rw [show containsSub tag ([] : List Char) = tag.isEmpty from rfl] at hsub
      have htagnil : tag = [] := by simpa [List.isEmpty_iff] using hsub
      subst htagnil
      exact absurd htag (by decide)
    have hany : (network_fs_tags.any fun t => containsSub t (toLowerStr f)) = true :=
      List.any_eq_true.mpr ⟨tag, htag, hsub⟩
    have hcond : is_network_fs_of (some f) = true := by
      show (decide (f ≠ []) &&
        network_fs_tags.any fun t => containsSub t (toLowerStr f)) = true
      rw [hany, Bool.and_true]
      simp [hf]
    simp only [recommend_thread_count, hcond, if_true]
    exact le_trans (min_le_right _ _) (min_le_right _ _)

theorem C7_witness :
    recommend_thread_count 8 10 0 0 (some 40) (some "ext4".data) ≤
      recommend_thread_count 8 10 0 0 (some 100) (some "ext4".data) ∧
    recommend_thread_count 8 10 0 0 (some 40) (some "nfs4".data) ≤ 8 :=
  ⟨C7_thread_recommendation.1 8 10 0 0 (some "ext4".data) 40 100 (by decide) (by decide),
   C7_thread_recommendation.2 8 10 0 0 (some 40) "nfs4".data "nfs".data (by decide)
     (by decide)⟩

theorem walkFuel_stops_none (lk : List (Nat × List Char × Option Nat)) (fuel : Nat)
    (acc : List (List Char)) : walkFuel lk fuel acc none = some acc := by
  cases fuel <;> simp [walkFuel, contCond]

theorem walkFuel_stops_missing (lk : List (Nat × List Char × Option Nat)) (fuel : Nat)
    (acc : List (List Char)) (i : Nat) (h : lookupParent lk i = none) :
    walkFuel lk fuel acc (some i) = some acc := by
  cases fuel with
  | zero => simp [walkFuel, contCond, h]
  | succ f => by_cases hi : i = 0 <;> simp [walkFuel, h, hi]

theorem walkFuel_none_chain (lk : List (Nat × List Char × Option Nat)) :
    ∀ (fuel : Nat) (acc : List (List Char)) (cur : Option Nat),
      walkFuel lk fuel acc cur = none →
      ∃ (i : Nat) (l : List Nat), cur = some i ∧ (i :: l).length = fuel + 1 ∧
        List.Chain' (parentRel lk) (i :: l) ∧
        ∀ j ∈ i :: l, (lookupParent lk j).isSome = true := by
  intro fuel
  induction fuel with
  | zero =>
    intro acc cur h
    rcases cur with _ | i
    · simp [walkFuel, contCond] at h
    · simp only [walkFuel] at h
      have hcond : contCond lk (some i) = true := by
        by_cases hc : contCond lk (some i) = true
        · exact hc
        · rw [if_neg hc] at h; exact Option.noConfusion h
      have hparts : i ≠ 0 ∧ (lookupParent lk i).isSome = true := by
        simpa [contCond] using hcond
      exact ⟨i, [], rfl, rfl, List.chain'_singleton i, by
        intro j hj
        simp only [List.mem_singleton] at hj
        subst hj
        exact hparts.2⟩
  | succ f ih =>
    intro acc cur h
    rcases cur with _ | i
    · simp [walkFuel] at h
    · by_cases hi : i = 0
      · simp [walkFuel, hi] at h
      · cases hl : lookupParent lk i with
        | none => simp [walkFuel, hi, hl] at h
        | some pr =>
          obtain ⟨nm, pid⟩ := pr
          have hrec : walkFuel lk f (nm :: acc) pid = none := by
            simpa [walkFuel, hi, hl] using h
          obtain ⟨i2, l2, hcur2, hlen2, hchain2, hmem2⟩ := ih (nm :: acc) pid hrec
          refine ⟨i, i2 :: l2, rfl, ?_, ?_, ?_⟩
          · simp only [List.length_cons] at hlen2 ⊢
            omega
          · rw [List.chain'_cons]
            exact ⟨⟨nm, by rw [hl, hcur2]⟩, hchain2⟩
          · intro j hj
            rcases List.mem_cons.mp hj with hj | hj
            · subst hj
              simp [hl]
            · exact hmem2 j hj

theorem chain'_transGen_of_get (R : Nat → Nat → Prop) (l : List Nat)
    (hc : List.Chain' R l) :
    ∀ (a b : Nat) (ha : a < l.length) (hb : b < l.length), a < b →
      Relation.TransGen R (l.get ⟨a, ha⟩) (l.get ⟨b, hb⟩) := by
  intro a b
  induction b with
  | zero => intro ha hb hab; omega
  | succ k ihk =>
    intro ha hb hab
    have hk : k < l.length := by omega
    have hstep : R (l.get ⟨k, hk⟩) (l.get ⟨k + 1, hb⟩) := List.chain'_iff_get.mp hc k (by omega)
    by_cases hak : a = k
    · subst hak
      exact Relation.TransGen.single hstep
    · have hlt : a < k := by omega
      exact Relation.TransGen.tail (ihk ha hk hlt) hstep

theorem transGen_irrefl_of_no_rel {R : Nat → Nat → Prop} (h : ∀ a b, ¬ R a b) :
    ∀ i, ¬ Relation.TransGen R i i := by
  intro i hti
  cases hti with
  | single hr => exact h _ _ hr
  | tail _ hr => exact h _ _ hr

/-- C8: when the parent relation restricted to looked-up ids is acyclic, the
per-row parent-chain walk always terminates with a result inside the fuel
bound `lk.length + 1` used by the embedding; and a `parentID` that is null, or
absent from the lookup, simply ends the walk with the accumulated parts
(treated as reaching the effective root), never an error. -/
theorem C8_parent_walk_terminates (lk : List (Nat × List Char × Option Nat))
    (hacyc : ∀ i, ¬ Relation.TransGen (parentRel lk) i i) :
    (∀ (acc : List (List Char)) (cur : Option Nat),
      (walkFuel lk (lk.length + 1) acc cur).isSome = true) ∧
    (∀ (fuel : Nat) (acc : List (List Char)), walkFuel lk fuel acc none = some acc) ∧
    (∀ (fuel : Nat) (acc : List (List Char)) (i : Nat), lookupParent lk i = none →
      walkFuel lk fuel acc (some i) = some acc) := by
  refine ⟨?_, fun fuel acc => walkFuel_stops_none lk fuel acc,
    fun fuel acc i h => walkFuel_stops_missing lk fuel acc i h⟩
  intro acc cur
  by_contra hnot
  have hnone : walkFuel lk (lk.length + 1) acc cur = none := by
    cases hw : walkFuel lk (lk.length + 1) acc cur with
    | none => rfl
    | some v => rw [hw] at hnot; simp at hnot
  obtain ⟨i, l, hcur, hlen, hchain, hmem⟩ :=
    walkFuel_none_chain lk (lk.length + 1) acc cur hnone
  have hsub : (i :: l) ⊆ lk.map (fun e => e.1) := by
    intro j hj
    have hs := hmem j hj
    rw [lookupParent] at hs
    have hfind : (lk.find? fun e => e.1 = j).isSome := by
      cases hf : lk.find? fun e => e.1 = j with
      | none => rw [hf] at hs; simp at hs
      | some e => simp
    obtain ⟨e, hel, hpe⟩ := List.find?_isSome.mp hfind
    have he : e.1 = j := by simpa using hpe
    exact he ▸ List.mem_map_of_mem _ hel
  have hnodup : ¬ (i :: l).Nodup := by
    intro hnd
    have hle := (List.subperm_of_subset hnd hsub).length_le
    rw [hlen, List.length_map] at hle
    omega
  have hninj : ¬ Function.Injective (i :: l).get :=
    fun hinj => hnodup (List.nodup_iff_injective_get.mpr hinj)
  rw [Function.Injective] at hninj
  push_neg at hninj
  obtain ⟨a, b, hab, hne⟩ := hninj
  rcases Nat.lt_or_ge a.val b.val with hlt | hge
  · have ht := chain'_transGen_of_get (parentRel lk) (i :: l) hchain a.val b.val a.isLt
      b.isLt hlt
    rw [← hab] at ht
    exact hacyc _ ht
  · have hlt : b.val < a.val := by
      rcases Nat.lt_or_ge b.val a.val with hx | hx
      · exact hx
      · exact absurd (Fin.ext (by omega)) hne
    have ht := chain'_transGen_of_get (parentRel lk) (i :: l) hchain b.val a.val b.isLt
      a.isLt hlt
    rw [hab] at ht
    exact hacyc _ ht

theorem lkC8_no_parentRel : ∀ a b, ¬ parentRel lkC8 a b := by
  rintro a b ⟨nm, hm⟩
  by_cases ha : (1 : Nat) = a
  · simp [lookupParent, lkC8, List.find?, ha] at hm
  · simp [lookupParent, lkC8, List.find?, ha] at hm

theorem C8_witness :
    (walkFuel lkC8 (lkC8.length + 1) ["x".data] (some 1)).isSome = true :=
  (C8_parent_walk_terminates lkC8
    (transGen_irrefl_of_no_rel lkC8_no_parentRel)).1 ["x".data] (some 1)
